import Mathlib

/-!
Verification development for the MacroArc macro engine.

Shallow embedding of the TypeScript sources under `src/src/hooks/`:
`macroEngine/hotkeyUtils.ts`, `macroEngine/eventTransforms.ts`,
`macroEngine/constants.ts` and the pure state-transition cores of
`useMacroEngine.ts` (stop-recording pipeline, macro-sync listener,
queue playback loop).

Modelling conventions:
- JavaScript numbers are modelled as rationals (`ℚ`).  Non-finite values
  (NaN, ±Infinity) are outside the model, so the `Number.isFinite` guard in
  `ensureNumber` reduces to the identity; the fallback argument is kept to
  mirror the source signature.
- JavaScript strings are Lean `String`s; `String.prototype.trim` is modelled
  by `jsTrim` (ASCII whitespace), `toLowerCase` by `String.toLower`.
- A JavaScript `Set` is modelled as a `List` used only through membership.
- `Array.prototype.sort` with comparator `(a, b) => a.offsetMs - b.offsetMs`
  is modelled by the stable `List.mergeSort` with `a.offsetMs ≤ b.offsetMs`,
  matching the ECMAScript stable-sort requirement.
- Fields of no logical consequence that are nondeterministic in the source
  (`nanoid()` ids, `Date.now()` timestamps) are carried as plain data
  (`id`, `createdAt`) or omitted where the source never reads them.
-/

namespace MacroArc

/-- Model of the whitespace test of JS `String.prototype.trim` (ASCII subset). -/
def jsWhitespace (c : Char) : Bool :=
  c = ' ' || c = '\t' || c = '\n' || c = '\r'

/-- Model of JS `value.trim()`: drop leading and trailing whitespace. -/
def jsTrim (s : String) : String :=
  String.mk (((s.toList.dropWhile jsWhitespace).reverse.dropWhile jsWhitespace).reverse)

/-- Model of JS `s.split(sep)` for a single-character separator (the source
only ever splits on `'+'`): `""` yields `[""]`, separators at the edges and
adjacent separators yield empty segments. -/
def splitOnChar (s : String) (sep : Char) : List String :=
  (s.toList.foldr (fun c acc =>
    match acc with
    | [] => [[c]]
    | cur :: rest => if c = sep then [] :: (cur :: rest) else (c :: cur) :: rest)
    [[]]).map String.mk

/-- Model of JS `s.toLowerCase()` (ASCII case mapping). -/
def jsToLower (s : String) : String := String.mk (s.toList.map Char.toLower)

/-- Model of JS `s.endsWith(suffix)`. -/
def jsEndsWith (s suffix : String) : Bool := suffix.toList.isSuffixOf s.toList

/-- Model of JS `s.slice(0, -n)`: drop the last `n` characters. -/
def jsDropRight (s : String) (n : Nat) : String :=
  String.mk (s.toList.take (s.toList.length - n))

/-- Model of JS `Math.round` on a finite number: half-up rounding. -/
def jsRound (q : ℚ) : ℤ := ⌊q + 1/2⌋

/-- From `helpers.ts`: `ensureNumber(value, fallback)` returns `Number(value)`
when finite, else the fallback.  Finite numbers are the whole model domain,
so on `ℚ` this is the identity; the fallback mirrors the source signature. -/
def ensureNumber (value : ℚ) (_fallback : ℚ) : ℚ := value

/-! ### constants.ts -/

/-- From `constants.ts`: head-strip window in milliseconds. -/
def RECORDER_HOTKEY_HEAD_WINDOW_MS : ℚ := 200

/-- From `constants.ts`: tail-strip window in milliseconds. -/
def RECORDER_HOTKEY_TAIL_WINDOW_MS : ℚ := 300

/-- From `constants.ts`: live-preview event limit. -/
def RECENT_EVENT_LIMIT : ℕ := 12

/-- From `constants.ts`: `VALID_MOUSE_BUTTONS`. -/
def VALID_MOUSE_BUTTONS : List String := ["left", "right", "middle", "unknown"]

/-- From `constants.ts`: `SCROLL_DELTA_MODE_NATIVE`. -/
def SCROLL_DELTA_MODE_NATIVE : String := "native"

/-! ### macroTypes.ts data model -/

/-- Tagged event payload from `macroTypes.ts` (`MacroEventKind`).  Mouse
buttons are strings at runtime (out-of-domain values are what the sanitizer
coerces), so `button` is a plain `String` here. -/
inductive MacroEventKind where
  | mouseMove (x y : ℚ)
  | mouseDown (button : String)
  | mouseUp (button : String)
  | keyDown (key : String)
  | keyUp (key : String)
  | scroll (delta_x delta_y : ℚ)
deriving DecidableEq, Repr

/-- `MacroEvent` from `macroTypes.ts`. -/
structure MacroEvent where
  id : String
  offsetMs : ℚ
  kind : MacroEventKind
  createdAt : ℤ
deriving DecidableEq, Repr

/-- Subset of `MacroSequence` from `macroTypes.ts` read by the scroll
normalization migration: `tags` may be absent/non-array at runtime
(`Array.isArray` guard), modelled as `Option`; `scrollDeltaMode` is the
optional migration flag. -/
structure MacroSequence where
  id : String
  name : String
  tags : Option (List String)
  events : List MacroEvent
  scrollDeltaMode : Option String
deriving DecidableEq, Repr

/-! ### hotkeyUtils.ts -/

/-- `HotkeyMatcher` from `hotkeyUtils.ts`; the JS `Set` alias set is a list
used only through membership. -/
structure HotkeyMatcher where
  aliasSet : List String
  canonicalTokens : List String
deriving DecidableEq, Repr

/-- `HOTKEY_TOKEN_ALIASES` lookup from `hotkeyUtils.ts`, with the
`?? [token]` default folded in. -/
def hotkeyTokenAliases (token : String) : List String :=
  if token = "commandorcontrol" then ["command", "cmd", "meta", "control", "ctrl"]
  else if token = "command" then ["command", "cmd", "meta"]
  else if token = "cmd" then ["command", "cmd", "meta"]
  else if token = "control" then ["control", "ctrl"]
  else if token = "ctrl" then ["control", "ctrl"]
  else if token = "alt" then ["alt"]
  else if token = "option" then ["alt"]
  else if token = "shift" then ["shift"]
  else if token = "meta" then ["meta", "command", "cmd"]
  else if token = "super" then ["meta", "super"]
  else [token]

/-- `normalizeHotkeySegment` from `hotkeyUtils.ts`. -/
def normalizeHotkeySegment (value : String) : String :=
  let normalized := jsToLower (jsTrim value)
  if 4 < normalized.length then
    if jsEndsWith normalized "left" then jsDropRight normalized 4
    else if jsEndsWith normalized "right" then jsDropRight normalized 5
    else normalized
  else normalized

/-- Split a chord or key label on `+`, normalize each segment and drop empty
segments — the shared token pipeline of `buildHotkeyMatcher` and
`getEventHotkeyTokens` in `hotkeyUtils.ts` (`.filter(Boolean)`). -/
def hotkeyTokensOf (s : String) : List String :=
  ((splitOnChar s '+').map normalizeHotkeySegment).filter (fun t => t ≠ "")

/-- `buildHotkeyMatcher` from `hotkeyUtils.ts`.  `!combo?.length` is the
`none`/empty-string guard; the alias `Set` is built by expanding every
canonical token. -/
def buildHotkeyMatcher (combo : Option String) : Option HotkeyMatcher :=
  match combo with
  | none => none
  | some s =>
    if s.length = 0 then none
    else
      let canonicalTokens := hotkeyTokensOf s
      if canonicalTokens = [] then none
      else some { aliasSet := canonicalTokens.flatMap hotkeyTokenAliases,
                  canonicalTokens := canonicalTokens }

/-- `getEventHotkeyTokens` from `hotkeyUtils.ts`: key events only, `none`
when the token list is empty. -/
def getEventHotkeyTokens (event : MacroEvent) : Option (List String) :=
  match event.kind with
  | .keyDown key =>
    let tokens := hotkeyTokensOf key
    if tokens = [] then none else some tokens
  | .keyUp key =>
    let tokens := hotkeyTokensOf key
    if tokens = [] then none else some tokens
  | _ => none

/-- `isRecorderHotkeyEvent` from `hotkeyUtils.ts`: fuzzy match — every event
token lies in the matcher's alias set. -/
def isRecorderHotkeyEvent (event : MacroEvent) (matcher : HotkeyMatcher) : Bool :=
  match getEventHotkeyTokens event with
  | none => false
  | some tokens => tokens.all (fun token => matcher.aliasSet.contains token)

/-- `isExactRecorderHotkeyEvent` from `hotkeyUtils.ts`: fuzzy match plus
token-count equality with the canonical chord. -/
def isExactRecorderHotkeyEvent (event : MacroEvent) (matcher : HotkeyMatcher) : Bool :=
  match getEventHotkeyTokens event with
  | none => false
  | some tokens =>
    if tokens.length ≠ matcher.canonicalTokens.length then false
    else tokens.all (fun token => matcher.aliasSet.contains token)

/-- Number of leading events consumed by the `while` loop of
`stripRecorderHotkeyHead`: stop at the first event past the head window or
failing the fuzzy match. -/
def stripHeadCount (matcher : HotkeyMatcher) : List MacroEvent → ℕ
  | [] => 0
  | candidate :: rest =>
    if RECORDER_HOTKEY_HEAD_WINDOW_MS < candidate.offsetMs then 0
    else if isRecorderHotkeyEvent candidate matcher then 1 + stripHeadCount matcher rest
    else 0

/-- `stripRecorderHotkeyHead` from `hotkeyUtils.ts`. -/
def stripRecorderHotkeyHead (events : List MacroEvent) (hotkey : Option String) :
    List MacroEvent :=
  match buildHotkeyMatcher hotkey with
  | none => events
  | some matcher =>
    if events = [] then events
    else
      let startIndex := stripHeadCount matcher events
      if startIndex = 0 then events
      else if events.length ≤ startIndex then []
      else
        let rest := events.drop startIndex
        let baseline := (rest.head?.map MacroEvent.offsetMs).getD 0
        rest.map fun event => { event with offsetMs := max 0 (event.offsetMs - baseline) }

/-- Number of trailing events consumed by the `while` loop of
`stripRecorderHotkeyTail`, computed over the reversed list: stop at the
first event further than the tail window from the last offset or failing
the fuzzy match. -/
def stripTailCount (matcher : HotkeyMatcher) (lastOffset : ℚ) : List MacroEvent → ℕ
  | [] => 0
  | candidate :: rest =>
    if RECORDER_HOTKEY_TAIL_WINDOW_MS < lastOffset - candidate.offsetMs then 0
    else if isRecorderHotkeyEvent candidate matcher then 1 + stripTailCount matcher lastOffset rest
    else 0

/-- `stripRecorderHotkeyTail` from `hotkeyUtils.ts`. -/
def stripRecorderHotkeyTail (events : List MacroEvent) (hotkey : Option String) :
    List MacroEvent :=
  match buildHotkeyMatcher hotkey with
  | none => events
  | some matcher =>
    if events = [] then events
    else
      let lastOffset := (events.getLast?.map MacroEvent.offsetMs).getD 0
      let dropped := stripTailCount matcher lastOffset events.reverse
      let cutoff := events.length - dropped
      if cutoff = events.length then events else events.take cutoff

/-- `removeRecorderHotkeyCombos` from `hotkeyUtils.ts`. -/
def removeRecorderHotkeyCombos (events : List MacroEvent) (hotkey : Option String) :
    List MacroEvent :=
  match buildHotkeyMatcher hotkey with
  | none => events
  | some matcher =>
    if events = [] then events
    else events.filter (fun event => ¬ isExactRecorderHotkeyEvent event matcher)

/-! ### eventTransforms.ts -/

/-- `coerceButton` from `eventTransforms.ts`. -/
def coerceButton (button : String) : String :=
  if VALID_MOUSE_BUTTONS.contains button then button else "unknown"

/-- `sanitizeMacroEvent` from `eventTransforms.ts`. -/
def sanitizeMacroEvent (event : MacroEvent) : MacroEvent :=
  let offset : ℚ := ↑(max 0 (jsRound (ensureNumber event.offsetMs 0)))
  match event.kind with
  | .mouseMove x y =>
    { event with offsetMs := offset,
                 kind := .mouseMove ↑(jsRound (ensureNumber x 0)) ↑(jsRound (ensureNumber y 0)) }
  | .mouseDown button =>
    { event with offsetMs := offset, kind := .mouseDown (coerceButton button) }
  | .mouseUp button =>
    { event with offsetMs := offset, kind := .mouseUp (coerceButton button) }
  | .keyDown key =>
    { event with offsetMs := offset, kind := .keyDown (jsTrim key) }
  | .keyUp key =>
    { event with offsetMs := offset, kind := .keyUp (jsTrim key) }
  | .scroll dx dy =>
    { event with offsetMs := offset,
                 kind := .scroll (ensureNumber dx 0) (ensureNumber dy 0) }

/-- Comparator of the `offsetMs` sorts in `eventTransforms.ts` and
`useMacroEngine.ts` (`(a, b) => a.offsetMs - b.offsetMs`). -/
def byOffsetLe (a b : MacroEvent) : Bool := a.offsetMs ≤ b.offsetMs

/-- `sanitizeMacroEventList` from `eventTransforms.ts`: sanitize each event,
then stable-sort by `offsetMs`. -/
def sanitizeMacroEventList (events : List MacroEvent) : List MacroEvent :=
  (events.map sanitizeMacroEvent).mergeSort byOffsetLe

/-- `invertScroll` from `eventTransforms.ts`. -/
def invertScroll (value : MacroEvent) : MacroEvent :=
  match value.kind with
  | .scroll dx dy => { value with kind := .scroll (-dx) (-dy) }
  | _ => value

/-- `normalizeScrollEvents` from `eventTransforms.ts`. -/
def normalizeScrollEvents (events : List MacroEvent) : List MacroEvent :=
  events.map fun event =>
    match event.kind with
    | .scroll _ _ => invertScroll event
    | _ => event

/-- `shouldNormalizeMacroScrolls` from `eventTransforms.ts`; the
`MacroSequence | null | undefined` parameter is an `Option`. -/
def shouldNormalizeMacroScrolls (m : Option MacroSequence) : Bool :=
  match m with
  | none => false
  | some seq =>
    if seq.scrollDeltaMode = some SCROLL_DELTA_MODE_NATIVE then false
    else
      match seq.tags with
      | none => false
      | some tags =>
        if tags.contains "capture" then
          seq.events.any fun event =>
            match event.kind with
            | .scroll _ _ => true
            | _ => false
        else false

/-- `normalizeMacroScrolls` from `eventTransforms.ts`. -/
def normalizeMacroScrolls (seq : MacroSequence) : MacroSequence :=
  if shouldNormalizeMacroScrolls (some seq) then
    { seq with events := normalizeScrollEvents seq.events,
               scrollDeltaMode := some SCROLL_DELTA_MODE_NATIVE }
  else seq

/-! ### useMacroEngine.ts: pure cores of the stateful hook -/

/-- Activity-entry tone from `macroTypes.ts` (`ActivityEntry.tone`). -/
inductive ActivityTone where
  | info
  | success
  | warning
deriving DecidableEq, Repr

/-- Activity-log entry (`ActivityEntry` from `macroTypes.ts`); the
nondeterministic `id`/`timestamp` fields are omitted — the engine never
reads them back. -/
structure ActivityEntry where
  label : String
  tone : ActivityTone
  meta : Option String := none
deriving DecidableEq, Repr

/-- `pushEntry` from `useMacroEngine.ts`: prepend and keep at most 18. -/
def pushEntry (entries : List ActivityEntry) (entry : ActivityEntry) : List ActivityEntry :=
  (entry :: entries).take 18

/-- The sort in `stopRecording` (`[...events].sort((a, b) => a.offsetMs -
b.offsetMs)`), modelled as the stable merge sort. -/
def sortByOffset (events : List MacroEvent) : List MacroEvent :=
  events.mergeSort byOffsetLe

/-- The capture post-processing pipeline of `stopRecording` in
`useMacroEngine.ts` (lines 946-957): invert raw scroll deltas, sort by
offset, then strip the recorder hotkey — head strip only when recording was
started via hotkey, exact-chord removal always, tail strip only when
recording was stopped via hotkey. -/
def processStoppedCapture (events : List MacroEvent) (recorderHotkey : Option String)
    (startedViaHotkey stopViaHotkey : Bool) : List MacroEvent :=
  let events := normalizeScrollEvents events
  let sorted := sortByOffset events
  let sorted := if startedViaHotkey then stripRecorderHotkeyHead sorted recorderHotkey else sorted
  let sorted := removeRecorderHotkeyCombos sorted recorderHotkey
  if stopViaHotkey then stripRecorderHotkeyTail sorted recorderHotkey else sorted

/-- Session state touched by the success path of `stopRecording`. -/
structure SessionState where
  recording : Bool
  pendingCapture : Option (List MacroEvent)
  statusText : String
  recentEvents : List MacroEvent
  activity : List ActivityEntry
deriving DecidableEq, Repr

/-- State transition of `stopRecording` after the processed capture is in
hand (lines 958-1021, error-free path): the empty capture is discarded with
a warning entry, a non-empty capture becomes the pending capture; the
`finally` block always clears `recording`. -/
def stopRecordingFinish (st : SessionState) (sanitized : List MacroEvent) : SessionState :=
  if sanitized.length = 0 then
    let st1 := { st with
      statusText := "No events captured",
      activity := pushEntry st.activity
        { label := "Empty capture discarded", tone := .warning } }
    { st1 with recording := false }
  else
    let preview := (sanitized.drop (sanitized.length - RECENT_EVENT_LIMIT)).reverse
    let st1 := { st with
      recentEvents := preview,
      pendingCapture := some sanitized,
      statusText := "Capture ready",
      activity := pushEntry st.activity
        { label := "Capture ready for review", tone := .success,
          meta := some (toString sanitized.length ++ " events") } }
    { st1 with recording := false }

/-- Full error-free `stopRecording` outcome: process the raw capture, then
apply the session transition. -/
def stopRecordingModel (st : SessionState) (raw : List MacroEvent)
    (recorderHotkey : Option String) (startedViaHotkey stopViaHotkey : Bool) : SessionState :=
  stopRecordingFinish st (processStoppedCapture raw recorderHotkey startedViaHotkey stopViaHotkey)

/-! ### useMacroEngine.ts: macro-library sync (MACRO_SYNC_CHANNEL) -/

/-- Payload of a `MACRO_SYNC_CHANNEL` message: the sender's instance id and
the macro snapshot; `macros := none` models a payload failing the
`Array.isArray` check. -/
structure MacroSyncPayload where
  source : String
  macros : Option (List MacroSequence)
deriving DecidableEq, Repr

/-- Sync-relevant engine state: the library, the
`macrosSyncSuppressedRef` flag, and the trace of outbound macro-sync
broadcasts this process has emitted. -/
structure SyncState where
  macros : List MacroSequence
  suppressed : Bool
  emitted : List (List MacroSequence)
deriving DecidableEq, Repr

/-- `replaceMacros` from `useMacroEngine.ts` (lines 493-507): optionally
raise the suppression flag around the state update; emit a macro-sync
broadcast only when neither the option nor the flag suppresses it. -/
def replaceMacros (st : SyncState) (next : List MacroSequence) (suppressSync : Bool) :
    SyncState :=
  let st1 := if suppressSync then { st with suppressed := true } else st
  let st2 := { st1 with macros := next }
  if suppressSync then { st2 with suppressed := false }
  else if st2.suppressed = false then { st2 with emitted := st2.emitted ++ [next] }
  else st2

/-- The `MACRO_SYNC_CHANNEL` listener from `useMacroEngine.ts` (lines
723-747): drop missing payloads, own echoes, and non-array snapshots;
apply a remote snapshot through `replaceMacros` with `suppressSync`. -/
def onMacroSyncMessage (selfId : String) (st : SyncState) (payload : Option MacroSyncPayload) :
    SyncState :=
  match payload with
  | none => st
  | some p =>
    if p.source = selfId then st
    else
      match p.macros with
      | none => st
      | some ms => replaceMacros st ms true

/-! ### useMacroEngine.ts: queue playback -/

/-- The `for` loop of `runQueueSequence` (lines 1566-1579).  The cooperative
flag `controller.cancelled` is set externally by `stopQueuePlayback`; it is
modelled by `cancelAfter`, the number of completed macro plays after which
the flag reads `true` (a play itself is atomic — the flag is only read
between plays, matching the source).  `done` counts completed plays; the
returned list is the macro ids actually played. -/
def runQueueSequenceModel (macroIds : List String) (done cancelAfter : ℕ) : List String :=
  match macroIds with
  | [] => []
  | id :: rest =>
    if cancelAfter ≤ done then []
    else
      id :: (if cancelAfter ≤ done + 1 then [] else runQueueSequenceModel rest (done + 1) cancelAfter)

/-- Result of one `playQueuedMacros` run: which macros played and the final
`queueRunning` flag. -/
structure QueueRunResult where
  running : Bool
  played : List String
deriving DecidableEq, Repr

/-- `playQueuedMacros` from `useMacroEngine.ts` (lines 1738-1765), reduced
to its queue-play core: no-op when the queue is empty or already running;
otherwise run the snapshot under a fresh controller, with
`setQueueRunning(false)` in the `finally` block. -/
def playQueuedMacrosModel (queuedIds : List String) (running0 : Bool) (cancelAfter : ℕ) :
    QueueRunResult :=
  if queuedIds = [] ∨ running0 then { running := running0, played := [] }
  else { running := false, played := runQueueSequenceModel queuedIds 0 cancelAfter }

/-! ### Helper lemmas -/

theorem dropWhile_idem {α} (p : α → Bool) : ∀ l : List α,
    (l.dropWhile p).dropWhile p = l.dropWhile p
  | [] => rfl
  | a :: t => by
    by_cases h : p a
    · simp only [List.dropWhile_cons, h, if_true]
      exact dropWhile_idem p t
    · simp [List.dropWhile_cons, h]

theorem head?_dropWhile_false {α} (p : α → Bool) : ∀ l : List α, ∀ a : α,
    (l.dropWhile p).head? = some a → p a = false
  | [], a => by intro h; exact Option.noConfusion h
  | b :: t, a => by
    intro h
    by_cases hb : p b
    · exact head?_dropWhile_false p t a (by simpa [List.dropWhile_cons, hb] using h)
    · have hd : (b :: t).dropWhile p = b :: t := by simp [List.dropWhile_cons, hb]
      rw [hd] at h
      have hba : b = a := by simpa using h
      rw [← hba]
      simpa using hb

theorem dropWhile_suffix_exists {α} (p : α → Bool) : ∀ l : List α,
    ∃ t, t ++ l.dropWhile p = l
  | [] => ⟨[], rfl⟩
  | a :: t => by
    by_cases h : p a
    · obtain ⟨u, hu⟩ := dropWhile_suffix_exists p t
      exact ⟨a :: u, by simp [List.dropWhile_cons, h, hu]⟩
    · exact ⟨[], by simp [List.dropWhile_cons, h]⟩

theorem dropWhile_eq_self_of_head {α} (p : α → Bool) (l : List α)
    (h : ∀ a, l.head? = some a → p a = false) : l.dropWhile p = l := by
  cases l with
  | nil => rfl
  | cons a t => simp [List.dropWhile_cons, h a rfl]

/-- Character-list core of `jsTrim`. -/
def trimChars (l : List Char) : List Char :=
  ((l.dropWhile jsWhitespace).reverse.dropWhile jsWhitespace).reverse

theorem trimChars_head (l : List Char) :
    ∀ a, (trimChars l).head? = some a → jsWhitespace a = false := by
  intro a ha
  unfold trimChars at ha
  rw [List.head?_reverse] at ha
  obtain ⟨t, ht⟩ := dropWhile_suffix_exists jsWhitespace (l.dropWhile jsWhitespace).reverse
  have hrev : (l.dropWhile jsWhitespace).reverse.getLast? = some a := by
    rw [← ht, List.getLast?_append, ha]; rfl
  rw [List.getLast?_reverse] at hrev
  exact head?_dropWhile_false jsWhitespace l a hrev

theorem trimChars_idem (l : List Char) : trimChars (trimChars l) = trimChars l := by
  have h1 : (trimChars l).dropWhile jsWhitespace = trimChars l :=
    dropWhile_eq_self_of_head _ _ (trimChars_head l)
  calc trimChars (trimChars l)
      = (((trimChars l).dropWhile jsWhitespace).reverse.dropWhile jsWhitespace).reverse := rfl
    _ = ((trimChars l).reverse.dropWhile jsWhitespace).reverse := by rw [h1]
    _ = trimChars l := by
        unfold trimChars
        rw [List.reverse_reverse, dropWhile_idem]

theorem jsTrim_idem (s : String) : jsTrim (jsTrim s) = jsTrim s := by
  show String.mk (trimChars (String.toList (String.mk (trimChars s.toList)))) =
    String.mk (trimChars s.toList)
  rw [show String.toList (String.mk (trimChars s.toList)) = trimChars s.toList from rfl]
  rw [trimChars_idem]

theorem jsRound_intCast (z : ℤ) : jsRound ((z : ℚ)) = z := by
  unfold jsRound
  rw [Int.floor_int_add]
  norm_num

theorem max_zero_idem (z : ℤ) : max 0 (max 0 z) = max 0 z := by omega

theorem jsRound_max_zero_intCast (z : ℤ) : jsRound (0 ⊔ (z : ℚ)) = 0 ⊔ z := by
  rw [show ((0 : ℚ) ⊔ (z : ℚ)) = ((((0 : ℤ) ⊔ z) : ℤ) : ℚ) by push_cast; rfl]
  rw [jsRound_intCast]

theorem coerceButton_idem (b : String) : coerceButton (coerceButton b) = coerceButton b := by
  by_cases h : VALID_MOUSE_BUTTONS.contains b = true
  · have hb : coerceButton b = b := by unfold coerceButton; exact if_pos h
    rw [hb, hb]
  · have hb : coerceButton b = "unknown" := by unfold coerceButton; exact if_neg h
    rw [hb]
    decide

theorem sanitizeMacroEvent_idem (e : MacroEvent) :
    sanitizeMacroEvent (sanitizeMacroEvent e) = sanitizeMacroEvent e := by
  cases e with
  | mk i off kind created =>
    cases kind <;>
      simp [sanitizeMacroEvent, ensureNumber, jsRound_intCast, jsTrim_idem,
        coerceButton_idem, max_zero_idem] <;>
      (rw [jsRound_max_zero_intCast]; push_cast; rw [← max_assoc, max_self])

theorem map_fix {α} (f : α → α) : ∀ l : List α, (∀ x ∈ l, f x = x) → l.map f = l
  | [] => by intro _; rfl
  | a :: t => by
    intro h
    simp only [List.map_cons, h a (by simp)]
    rw [map_fix f t (fun x hx => h x (by simp [hx]))]

theorem byOffsetLe_trans : ∀ a b c : MacroEvent,
    byOffsetLe a b → byOffsetLe b c → byOffsetLe a c := by
  intro a b c hab hbc
  simp only [byOffsetLe, decide_eq_true_eq] at *
  exact le_trans hab hbc

theorem byOffsetLe_total : ∀ a b : MacroEvent, byOffsetLe a b || byOffsetLe b a := by
  intro a b
  simp only [byOffsetLe, Bool.or_eq_true, decide_eq_true_eq]
  exact le_total _ _

theorem sanitizeMacroEventList_fixed (events : List MacroEvent) :
    (sanitizeMacroEventList events).map sanitizeMacroEvent = sanitizeMacroEventList events := by
  apply map_fix
  intro x hx
  unfold sanitizeMacroEventList at hx
  rw [List.mem_mergeSort] at hx
  obtain ⟨y, _, rfl⟩ := List.mem_map.mp hx
  exact sanitizeMacroEvent_idem y

theorem sanitizeMacroEventList_sorted (events : List MacroEvent) :
    (sanitizeMacroEventList events).Pairwise (fun a b => byOffsetLe a b) :=
  List.sorted_mergeSort byOffsetLe_trans byOffsetLe_total _

/-- C7: The event sanitizer is idempotent: sanitizing an already sanitized
list — per-event normalization followed by the stable sort on `offsetMs` —
returns it unchanged. -/
theorem sanitizeMacroEventList_idem (events : List MacroEvent) :
    sanitizeMacroEventList (sanitizeMacroEventList events) = sanitizeMacroEventList events :=
  calc sanitizeMacroEventList (sanitizeMacroEventList events)
      = ((sanitizeMacroEventList events).map sanitizeMacroEvent).mergeSort byOffsetLe := rfl
    _ = (sanitizeMacroEventList events).mergeSort byOffsetLe := by
        rw [sanitizeMacroEventList_fixed]
    _ = sanitizeMacroEventList events :=
        List.mergeSort_of_sorted (sanitizeMacroEventList_sorted events)

theorem sanitizeMacroEvent_offset (y : MacroEvent) :
    (sanitizeMacroEvent y).offsetMs = ((max 0 (jsRound y.offsetMs) : ℤ) : ℚ) := by
  cases y with
  | mk i off kind created => cases kind <;> rfl

theorem sanitizeMacroEvent_offset_nat (y : MacroEvent) :
    ∃ n : ℕ, (sanitizeMacroEvent y).offsetMs = (n : ℚ) := by
  refine ⟨(max 0 (jsRound y.offsetMs)).toNat, ?_⟩
  rw [sanitizeMacroEvent_offset]
  norm_cast
  omega

theorem coerceButton_mem (b : String) : coerceButton b ∈ VALID_MOUSE_BUTTONS := by
  unfold coerceButton
  split
  · next h => simpa using h
  · decide

theorem sanitizeMacroEvent_button (y : MacroEvent) (b : String)
    (h : (sanitizeMacroEvent y).kind = .mouseDown b ∨ (sanitizeMacroEvent y).kind = .mouseUp b) :
    b ∈ VALID_MOUSE_BUTTONS := by
  cases y with
  | mk i off kind created =>
    cases kind <;> rcases h with h | h <;> simp only [sanitizeMacroEvent] at h <;>
      cases h <;> exact coerceButton_mem _

theorem sanitizeMacroEvent_key (y : MacroEvent) (k : String)
    (h : (sanitizeMacroEvent y).kind = .keyDown k ∨ (sanitizeMacroEvent y).kind = .keyUp k) :
    k = jsTrim k := by
  cases y with
  | mk i off kind created =>
    cases kind <;> rcases h with h | h <;> simp only [sanitizeMacroEvent] at h <;>
      cases h <;> exact (jsTrim_idem _).symm

/-- C8: Every sanitized list is sorted ascending by `offsetMs`, every
`offsetMs` in it is a non-negative integer, every surviving mouse button
lies in the valid-button set (out-of-domain buttons were coerced to
`"unknown"`), and every key label is trimmed.  The sanitizer is a total
Lean function, so it cannot fail on any input. -/
theorem sanitizeMacroEventList_wellFormed (events : List MacroEvent) :
    (∀ (i j : Fin (sanitizeMacroEventList events).length), (i : ℕ) < (j : ℕ) →
      ((sanitizeMacroEventList events).get i).offsetMs ≤
        ((sanitizeMacroEventList events).get j).offsetMs) ∧
    (∀ e ∈ sanitizeMacroEventList events,
      (∃ n : ℕ, e.offsetMs = (n : ℚ)) ∧
      (∀ b, (e.kind = .mouseDown b ∨ e.kind = .mouseUp b) → b ∈ VALID_MOUSE_BUTTONS) ∧
      (∀ k, (e.kind = .keyDown k ∨ e.kind = .keyUp k) → k = jsTrim k)) := by
  constructor
  · intro i j hij
    have hp := sanitizeMacroEventList_sorted events
    rw [List.pairwise_iff_get] at hp
    have hb := hp i j hij
    simpa [byOffsetLe, decide_eq_true_eq] using hb
  · intro e he
    unfold sanitizeMacroEventList at he
    rw [List.mem_mergeSort] at he
    obtain ⟨y, _, rfl⟩ := List.mem_map.mp he
    exact ⟨sanitizeMacroEvent_offset_nat y,
      fun b hb => sanitizeMacroEvent_button y b hb,
      fun k hk => sanitizeMacroEvent_key y k hk⟩

/-- Witness for C8 at a concrete input: sanitizing a fractional-offset event
with the out-of-domain button `"weird"` coerces the button to `"unknown"`,
which the theorem certifies to lie in the valid set. -/
theorem sanitizeMacroEventList_wellFormed_witness : "unknown" ∈ VALID_MOUSE_BUTTONS :=
  ((sanitizeMacroEventList_wellFormed
      [{ id := "w", offsetMs := 5/2, kind := .mouseDown "weird", createdAt := 0 }]).2
    (sanitizeMacroEvent { id := "w", offsetMs := 5/2, kind := .mouseDown "weird", createdAt := 0 })
    (by
      unfold sanitizeMacroEventList
      rw [List.mem_mergeSort]
      exact List.mem_map_of_mem _ (by simp))).2.1 "unknown" (Or.inl (by decide))

/-- Branch equation for `stripRecorderHotkeyHead` when stripping occurs and
events remain. -/
theorem stripRecorderHotkeyHead_eq (events : List MacroEvent) (hk : Option String)
    (m : HotkeyMatcher) (hm : buildHotkeyMatcher hk = some m) (hne : events ≠ [])
    (h0 : ¬ stripHeadCount m events = 0)
    (hlen : ¬ events.length ≤ stripHeadCount m events) :
    stripRecorderHotkeyHead events hk =
      (events.drop (stripHeadCount m events)).map
        (fun ev => { ev with offsetMs := max 0 (ev.offsetMs -
          (((events.drop (stripHeadCount m events)).head?.map MacroEvent.offsetMs).getD 0)) }) := by
  unfold stripRecorderHotkeyHead
  rw [hm]
  dsimp only
  rw [if_neg hne, if_neg h0, if_neg hlen]

/-- Branch equation for `stripRecorderHotkeyHead` when every event is
stripped. -/
theorem stripRecorderHotkeyHead_eq_nil (events : List MacroEvent) (hk : Option String)
    (m : HotkeyMatcher) (hm : buildHotkeyMatcher hk = some m) (hne : events ≠ [])
    (h0 : ¬ stripHeadCount m events = 0)
    (hlen : events.length ≤ stripHeadCount m events) :
    stripRecorderHotkeyHead events hk = [] := by
  unfold stripRecorderHotkeyHead
  rw [hm]
  dsimp only
  rw [if_neg hne, if_neg h0, if_pos hlen]

/-- Concrete event list of the spec's head-strip example: a key-down and a
key-up of the chord inside the 200 ms head window, then a real mouse click
at 300 ms. -/
def headStripDemo : List MacroEvent :=
  [ { id := "e1", offsetMs := 10, kind := .keyDown "Ctrl+Shift+M", createdAt := 0 },
    { id := "e2", offsetMs := 15, kind := .keyUp "Ctrl+Shift+M", createdAt := 0 },
    { id := "e3", offsetMs := 300, kind := .mouseDown "left", createdAt := 0 } ]

/-- The matcher the source builds for the chord string `"Ctrl+Shift+M"`. -/
def ctrlShiftM : HotkeyMatcher :=
  { aliasSet := ["control", "ctrl", "shift", "m"], canonicalTokens := ["ctrl", "shift", "m"] }

/-- C4: Head-strip drops leading in-window fuzzy chord matches and
re-baselines the remainder to start at offset 0.  First conjunct: the
spec's concrete example (`"Ctrl+Shift+M"`).  Second conjunct: whenever the
head strip removed at least one event and events remain, the first
remaining event is re-baselined to offset 0. -/
theorem stripRecorderHotkeyHead_ok :
    (stripRecorderHotkeyHead headStripDemo (some "Ctrl+Shift+M")
      = [ { id := "e3", offsetMs := 0, kind := .mouseDown "left", createdAt := 0 } ]) ∧
    (∀ (events : List MacroEvent) (hk : Option String) (m : HotkeyMatcher),
      buildHotkeyMatcher hk = some m →
      stripHeadCount m events ≠ 0 →
      ∀ e rest, stripRecorderHotkeyHead events hk = e :: rest → e.offsetMs = 0) := by
  constructor
  · rw [stripRecorderHotkeyHead_eq headStripDemo (some "Ctrl+Shift+M") ctrlShiftM
      (by decide) (by decide) (by decide) (by decide)]
    rw [show stripHeadCount ctrlShiftM headStripDemo = 2 from by decide]
    simp only [headStripDemo, List.drop_succ_cons, List.drop_zero, List.map_cons, List.map_nil,
      List.head?_cons, Option.map_some, Option.getD_some]
    norm_num
  · intro events hk m hm h0 e rest hres
    have hne : events ≠ [] := by
      intro h
      rw [h] at h0
      exact h0 rfl
    by_cases hlen : events.length ≤ stripHeadCount m events
    · rw [stripRecorderHotkeyHead_eq_nil events hk m hm hne h0 hlen] at hres
      exact absurd hres (by simp)
    · rw [stripRecorderHotkeyHead_eq events hk m hm hne h0 hlen] at hres
      cases hd : events.drop (stripHeadCount m events) with
      | nil => rw [hd] at hres; exact absurd hres (by simp)
      | cons y ys =>
        rw [hd] at hres
        simp only [List.map_cons, List.head?_cons, Option.map_some, Option.getD_some,
          List.cons.injEq] at hres
        have he : e = { y with offsetMs := max 0 (y.offsetMs - y.offsetMs) } := hres.1.symm
        rw [he]
        simp

/-- Witness for C4's second conjunct at the example input, reusing the first
conjunct as the concrete evaluation. -/
theorem stripRecorderHotkeyHead_ok_witness :
    ({ id := "e3", offsetMs := 0, kind := .mouseDown "left", createdAt := 0 } : MacroEvent).offsetMs
      = 0 :=
  stripRecorderHotkeyHead_ok.2 headStripDemo (some "Ctrl+Shift+M") ctrlShiftM
    (by decide) (by decide)
    { id := "e3", offsetMs := 0, kind := .mouseDown "left", createdAt := 0 } []
    stripRecorderHotkeyHead_ok.1

theorem normalizeMacroScrolls_of_not (s : MacroSequence)
    (h : shouldNormalizeMacroScrolls (some s) = false) : normalizeMacroScrolls s = s := by
  unfold normalizeMacroScrolls
  rw [if_neg (by simp [h])]

/-- C6: The scroll-normalization migration is one-way.  First conjunct:
`normalizeMacroScrolls` is idempotent — applying it to its own output
returns that output unchanged, so the sign-inversion is never reapplied.
Second conjunct: when the migration fires, it inverts every scroll delta
exactly once and sets `scrollDeltaMode` to `"native"`. -/
theorem normalizeMacroScrolls_oneWay (seq : MacroSequence) :
    normalizeMacroScrolls (normalizeMacroScrolls seq) = normalizeMacroScrolls seq ∧
    (shouldNormalizeMacroScrolls (some seq) = true →
      (normalizeMacroScrolls seq).events = normalizeScrollEvents seq.events ∧
      (normalizeMacroScrolls seq).scrollDeltaMode = some SCROLL_DELTA_MODE_NATIVE) := by
  by_cases h : shouldNormalizeMacroScrolls (some seq) = true
  · have happ : normalizeMacroScrolls seq =
        { seq with events := normalizeScrollEvents seq.events,
                   scrollDeltaMode := some SCROLL_DELTA_MODE_NATIVE } := by
      unfold normalizeMacroScrolls
      rw [if_pos h]
    have h2 : shouldNormalizeMacroScrolls (some (normalizeMacroScrolls seq)) = false := by
      rw [happ]
      unfold shouldNormalizeMacroScrolls
      simp
    refine ⟨?_, fun _ => ⟨by rw [happ], by rw [happ]⟩⟩
    exact normalizeMacroScrolls_of_not (normalizeMacroScrolls seq) h2
  · have happ : normalizeMacroScrolls seq = seq :=
      normalizeMacroScrolls_of_not seq (by simpa using h)
    exact ⟨by rw [happ, happ], fun hc => absurd hc h⟩

/-- Concrete legacy capture used as the C6 witness input: tagged `capture`,
contains a scroll event, migration flag unset. -/
def scrollDemoSeq : MacroSequence :=
  { id := "m", name := "n", tags := some ["capture"],
    events := [{ id := "s", offsetMs := 0, kind := .scroll 1 (-2), createdAt := 0 }],
    scrollDeltaMode := none }

/-- Witness for C6: the demo macro needs migration, and the theorem yields
that its migration sets the flag to `"native"`. -/
theorem normalizeMacroScrolls_oneWay_witness :
    shouldNormalizeMacroScrolls (some scrollDemoSeq) = true ∧
    (normalizeMacroScrolls scrollDemoSeq).scrollDeltaMode = some SCROLL_DELTA_MODE_NATIVE :=
  ⟨by decide, ((normalizeMacroScrolls_oneWay scrollDemoSeq).2 (by decide)).2⟩

/-- C2: The macro-sync listener never re-emits.  First conjunct: no inbound
macro-sync message — malformed, own echo, or remote — ever adds to the
outbound broadcast trace (echo suppression).  Second conjunct: a message
whose `source` equals the local instance id leaves the state untouched.
Third conjunct: a well-formed remote message replaces the local library
with the remote snapshot, leaving the suppression flag lowered and the
outbound trace unchanged. -/
theorem onMacroSyncMessage_ok (selfId : String) (st : SyncState)
    (payload : Option MacroSyncPayload) :
    (onMacroSyncMessage selfId st payload).emitted = st.emitted ∧
    (∀ p, payload = some p → p.source = selfId → onMacroSyncMessage selfId st payload = st) ∧
    (∀ p ms, payload = some p → p.source ≠ selfId → p.macros = some ms →
      onMacroSyncMessage selfId st payload =
        { macros := ms, suppressed := false, emitted := st.emitted }) := by
  refine ⟨?_, ?_, ?_⟩
  · cases payload with
    | none => rfl
    | some p =>
      unfold onMacroSyncMessage
      dsimp only
      by_cases hs : p.source = selfId
      · rw [if_pos hs]
      · rw [if_neg hs]
        cases hm : p.macros with
        | none => rfl
        | some ms =>
          dsimp only
          unfold replaceMacros
          simp
  · intro p hp hs
    subst hp
    unfold onMacroSyncMessage
    dsimp only
    rw [if_pos hs]
  · intro p ms hp hs hm
    subst hp
    unfold onMacroSyncMessage
    dsimp only
    rw [if_neg hs, hm]
    dsimp only
    unfold replaceMacros
    simp

/-- Witness for C2: a remote snapshot from instance `"B"` applied at
instance `"A"` replaces the library and emits nothing. -/
theorem onMacroSyncMessage_ok_witness :
    onMacroSyncMessage "A" { macros := [], suppressed := false, emitted := [] }
      (some { source := "B", macros := some [] }) =
      { macros := [], suppressed := false, emitted := [] } :=
  (onMacroSyncMessage_ok "A" { macros := [], suppressed := false, emitted := [] }
      (some { source := "B", macros := some [] })).2.2
    { source := "B", macros := some [] } [] rfl (by decide) rfl

theorem runQueueSequenceModel_take : ∀ (ids : List String) (done k : ℕ),
    runQueueSequenceModel ids done k = ids.take (k - done)
  | [], done, k => by simp [runQueueSequenceModel]
  | mid :: rest, done, k => by
    unfold runQueueSequenceModel
    by_cases h1 : k ≤ done
    · rw [if_pos h1, show k - done = 0 from by omega]
      rfl
    · rw [if_neg h1]
      by_cases h2 : k ≤ done + 1
      · rw [if_pos h2, show k - done = 1 from by omega]
        rfl
      · rw [if_neg h2, runQueueSequenceModel_take rest (done + 1) k,
          show k - done = (k - (done + 1)) + 1 from by omega]
        rfl

/-- C3: Cooperative queue cancellation.  If the cancellation flag is raised
after `k` macro plays have completed, a queue run started on snapshot `ids`
plays exactly the first `k` snapshot entries — whole macros only, since the
flag is read only between plays — and leaves `running = false`
(`setQueueRunning(false)` lives in the `finally` block).  The second
conjunct is the spec's 3-item scenario with the flag raised after item 1. -/
theorem queueCancellation_ok :
    (∀ (ids : List String) (k : ℕ),
      (playQueuedMacrosModel ids false k).played = ids.take k ∧
      (playQueuedMacrosModel ids false k).running = false) ∧
    playQueuedMacrosModel ["m1", "m2", "m3"] false 1 =
      { running := false, played := ["m1"] } := by
  constructor
  · intro ids k
    unfold playQueuedMacrosModel
    by_cases h : ids = []
    · subst h
      simp
    · rw [if_neg (by simp [h])]
      refine ⟨?_, rfl⟩
      rw [runQueueSequenceModel_take ids 0 k]
      norm_num
  · decide

theorem string_length_zero (s : String) (h : s.length = 0) : s = "" := by
  cases s with
  | mk data =>
    cases data with
    | nil => rfl
    | cons c cs => simp [String.length] at h

/-- C10: With no usable recorder hotkey the stripping stage is the
identity.  First conjunct: the matcher fails to build exactly when the
hotkey is absent, empty, or all of its `+`-separated segments normalize to
empty.  Second conjunct: whenever the matcher is `none` — or the capture is
empty — all three strip transforms return the input unchanged. -/
theorem hotkeyStrip_noMatcher_identity :
    (∀ hk : Option String, (buildHotkeyMatcher hk = none ↔
      (hk = none ∨ ∃ s, hk = some s ∧ hotkeyTokensOf s = []))) ∧
    (∀ (events : List MacroEvent) (hk : Option String),
      buildHotkeyMatcher hk = none ∨ events = [] →
      stripRecorderHotkeyHead events hk = events ∧
      stripRecorderHotkeyTail events hk = events ∧
      removeRecorderHotkeyCombos events hk = events) := by
  constructor
  · intro hk
    cases hk with
    | none => simp [buildHotkeyMatcher]
    | some s =>
      unfold buildHotkeyMatcher
      dsimp only
      constructor
      · intro h
        by_cases hlen : s.length = 0
        · rw [string_length_zero s hlen]
          exact Or.inr ⟨"", rfl, by decide⟩
        · rw [if_neg hlen] at h
          by_cases ht : hotkeyTokensOf s = []
          · exact Or.inr ⟨s, rfl, ht⟩
          · rw [if_neg ht] at h
            exact absurd h (by simp)
      · intro h
        rcases h with h | ⟨s', hs', ht⟩
        · exact absurd h (by simp)
        · have hss : s' = s := by
            injection hs' with hv
            exact hv.symm
          subst hss
          by_cases hlen : s'.length = 0
          · rw [if_pos hlen]
          · rw [if_neg hlen, if_pos ht]
  · intro events hk h
    rcases h with h | h
    · refine ⟨?_, ?_, ?_⟩
      · unfold stripRecorderHotkeyHead
        rw [h]
      · unfold stripRecorderHotkeyTail
        rw [h]
      · unfold removeRecorderHotkeyCombos
        rw [h]
    · subst h
      cases hb : buildHotkeyMatcher hk with
      | none =>
        refine ⟨?_, ?_, ?_⟩
        · unfold stripRecorderHotkeyHead
          rw [hb]
        · unfold stripRecorderHotkeyTail
          rw [hb]
        · unfold removeRecorderHotkeyCombos
          rw [hb]
      | some m =>
        refine ⟨?_, ?_, ?_⟩
        · unfold stripRecorderHotkeyHead
          rw [hb]
          dsimp only
          rw [if_pos rfl]
        · unfold stripRecorderHotkeyTail
          rw [hb]
          dsimp only
          rw [if_pos rfl]
        · unfold removeRecorderHotkeyCombos
          rw [hb]
          dsimp only
          rw [if_pos rfl]

/-- Witness for C10: `"++"` normalizes to no tokens, so the head strip
leaves a one-event capture unchanged. -/
theorem hotkeyStrip_noMatcher_identity_witness :
    stripRecorderHotkeyHead [{ id := "x", offsetMs := 0, kind := .mouseDown "left", createdAt := 0 }]
      (some "++") =
      [{ id := "x", offsetMs := 0, kind := .mouseDown "left", createdAt := 0 }] :=
  (hotkeyStrip_noMatcher_identity.2
    [{ id := "x", offsetMs := 0, kind := .mouseDown "left", createdAt := 0 }]
    (some "++") (Or.inl (by decide))).1

/-- C9: When sorting plus hotkey stripping leaves nothing, `stopRecording`
returns to Idle: `recording` is cleared by the `finally` block, the pending
capture is not set (it keeps whatever value it had — `null` after
`startRecording`), the status is the empty-capture text, and the newest
activity entry is the warning-toned `"Empty capture discarded"` — no error
is surfaced. -/
theorem stopRecording_emptyCapture (st : SessionState) (raw : List MacroEvent)
    (hk : Option String) (sh sv : Bool)
    (h : processStoppedCapture raw hk sh sv = []) :
    (stopRecordingModel st raw hk sh sv).recording = false ∧
    (stopRecordingModel st raw hk sh sv).pendingCapture = st.pendingCapture ∧
    (stopRecordingModel st raw hk sh sv).statusText = "No events captured" ∧
    (stopRecordingModel st raw hk sh sv).activity.head? =
      some { label := "Empty capture discarded", tone := .warning, meta := none } := by
  unfold stopRecordingModel
  rw [h]
  unfold stopRecordingFinish
  simp [pushEntry]

/-- Witness for C9: stopping with an empty raw capture and no hotkey leaves
recording `false`. -/
theorem stopRecording_emptyCapture_witness :
    (stopRecordingModel
      { recording := true, pendingCapture := none, statusText := "Listening for input...",
        recentEvents := [], activity := [] } [] none false false).recording = false :=
  (stopRecording_emptyCapture
    { recording := true, pendingCapture := none, statusText := "Listening for input...",
      recentEvents := [], activity := [] } [] none false false
    (by simp [processStoppedCapture, sortByOffset, normalizeScrollEvents,
      stripRecorderHotkeyHead, stripRecorderHotkeyTail, removeRecorderHotkeyCombos,
      buildHotkeyMatcher])).1

/-- Branch equation for `stripRecorderHotkeyTail` when a matcher exists and
the capture is non-empty. -/
theorem stripRecorderHotkeyTail_eq (events : List MacroEvent) (hk : Option String)
    (m : HotkeyMatcher) (hm : buildHotkeyMatcher hk = some m) (hne : events ≠ []) :
    stripRecorderHotkeyTail events hk =
      (let lastOffset := (events.getLast?.map MacroEvent.offsetMs).getD 0
       let dropped := stripTailCount m lastOffset events.reverse
       let cutoff := events.length - dropped
       if cutoff = events.length then events else events.take cutoff) := by
  unfold stripRecorderHotkeyTail
  rw [hm]
  dsimp only
  rw [if_neg hne]

/-- Capture used in the C1 demo: a real mouse click, then a trailing real
keystroke `"Ctrl"` at the last offset — a fuzzy (but not exact) match for
the chord `"Ctrl+Shift+M"`, inside the 300 ms tail window. -/
def uiStopDemo : List MacroEvent :=
  [ { id := "d1", offsetMs := 0, kind := .mouseDown "left", createdAt := 0 },
    { id := "d2", offsetMs := 1000, kind := .keyDown "Ctrl", createdAt := 0 } ]

theorem uiStopDemo_sortNorm :
    sortByOffset (normalizeScrollEvents uiStopDemo) = uiStopDemo := by
  rw [show normalizeScrollEvents uiStopDemo = uiStopDemo from by decide]
  exact List.mergeSort_of_sorted (by decide)

theorem uiStopDemo_removeCombos :
    removeRecorderHotkeyCombos uiStopDemo (some "Ctrl+Shift+M") = uiStopDemo := by
  decide

theorem uiStopDemo_stripTail :
    stripRecorderHotkeyTail uiStopDemo (some "Ctrl+Shift+M") =
      [ { id := "d1", offsetMs := 0, kind := .mouseDown "left", createdAt := 0 } ] := by
  rw [stripRecorderHotkeyTail_eq uiStopDemo (some "Ctrl+Shift+M") ctrlShiftM
    (by decide) (by decide)]
  dsimp only
  rw [show (uiStopDemo.getLast?.map MacroEvent.offsetMs).getD 0 = 1000 from by decide]
  rw [show uiStopDemo.reverse =
    [ { id := "d2", offsetMs := 1000, kind := .keyDown "Ctrl", createdAt := 0 },
      { id := "d1", offsetMs := 0, kind := .mouseDown "left", createdAt := 0 } ] from by decide]
  rw [show stripTailCount ctrlShiftM 1000
      [ { id := "d2", offsetMs := 1000, kind := .keyDown "Ctrl", createdAt := 0 },
        { id := "d1", offsetMs := 0, kind := .mouseDown "left", createdAt := 0 } ] = 1 by
    unfold stripTailCount
    rw [if_neg (by norm_num [RECORDER_HOTKEY_TAIL_WINDOW_MS])]
    rw [if_pos (by decide)]
    unfold stripTailCount
    rw [if_pos (by norm_num [RECORDER_HOTKEY_TAIL_WINDOW_MS])]]
  decide

/-- C1: `stopRecording` applies the hotkey-stripping transforms to the
sorted capture in the order head-strip (only if recording started via
hotkey), exact-chord removal (always), tail-strip (only if recording
stopped via hotkey).  The last two conjuncts instantiate the pipeline on a
capture whose trailing event is a real `"Ctrl"` keystroke inside the tail
window: a UI-triggered stop keeps it, a hotkey-triggered stop strips it. -/
theorem processStoppedCapture_order :
    (∀ (events : List MacroEvent) (hk : Option String) (sh sv : Bool),
      processStoppedCapture events hk sh sv =
        (let sorted := sortByOffset (normalizeScrollEvents events)
         let afterHead := if sh then stripRecorderHotkeyHead sorted hk else sorted
         let afterRemove := removeRecorderHotkeyCombos afterHead hk
         if sv then stripRecorderHotkeyTail afterRemove hk else afterRemove)) ∧
    processStoppedCapture uiStopDemo (some "Ctrl+Shift+M") false false = uiStopDemo ∧
    processStoppedCapture uiStopDemo (some "Ctrl+Shift+M") false true =
      [ { id := "d1", offsetMs := 0, kind := .mouseDown "left", createdAt := 0 } ] := by
  refine ⟨fun events hk sh sv => rfl, ?_, ?_⟩
  · show removeRecorderHotkeyCombos
      (sortByOffset (normalizeScrollEvents uiStopDemo)) (some "Ctrl+Shift+M") = uiStopDemo
    rw [uiStopDemo_sortNorm]
    exact uiStopDemo_removeCombos
  · show stripRecorderHotkeyTail (removeRecorderHotkeyCombos
      (sortByOffset (normalizeScrollEvents uiStopDemo)) (some "Ctrl+Shift+M"))
      (some "Ctrl+Shift+M") = _
    rw [uiStopDemo_sortNorm, uiStopDemo_removeCombos]
    exact uiStopDemo_stripTail

/-- C5 counterexample: the claim fails as stated.  For the chord
`"Option"` the canonical token is `"option"`, but its alias expansion is
`["alt"]`, which does not contain `"option"` itself.  An event whose
tokens are (a permutation of) the chord's own tokens is therefore not
classified as an exact match — it is not even a fuzzy match. -/
theorem classify_perm_counterexample :
    buildHotkeyMatcher (some "Option") =
      some { aliasSet := ["alt"], canonicalTokens := ["option"] } ∧
    getEventHotkeyTokens { id := "o", offsetMs := 0, kind := .keyDown "Option", createdAt := 0 } =
      some ["option"] ∧
    List.Perm ["option"] ["option"] ∧
    isExactRecorderHotkeyEvent { id := "o", offsetMs := 0, kind := .keyDown "Option", createdAt := 0 }
      { aliasSet := ["alt"], canonicalTokens := ["option"] } = false ∧
    isRecorderHotkeyEvent { id := "o", offsetMs := 0, kind := .keyDown "Option", createdAt := 0 }
      { aliasSet := ["alt"], canonicalTokens := ["option"] } = false :=
  ⟨by decide, by decide, List.Perm.refl _, by decide, by decide⟩

/-- C5 (amended): For a chord whose matcher exists and whose canonical
tokens each lie in their own alias expansion (true for every token except
`"CommandOrControl"` and `"Option"`), classification of an event with
token list `ts` returns: exact-match (and fuzzy) when `ts` is a permutation
of the canonical tokens, and fuzzy-but-not-exact when every member of `ts`
is a canonical token but `ts` has strictly fewer tokens. -/
theorem classify_roundTrip (chord : String) (m : HotkeyMatcher) (e : MacroEvent)
    (ts : List String)
    (hm : buildHotkeyMatcher (some chord) = some m)
    (hself : ∀ t ∈ m.canonicalTokens, m.aliasSet.contains t = true)
    (htok : getEventHotkeyTokens e = some ts) :
    (ts.Perm m.canonicalTokens →
      isExactRecorderHotkeyEvent e m = true ∧ isRecorderHotkeyEvent e m = true) ∧
    ((∀ t ∈ ts, t ∈ m.canonicalTokens) → ts.length < m.canonicalTokens.length →
      isRecorderHotkeyEvent e m = true ∧ isExactRecorderHotkeyEvent e m = false) := by
  have hfuzzy : (∀ t ∈ ts, t ∈ m.canonicalTokens) → isRecorderHotkeyEvent e m = true := by
    intro hsub
    unfold isRecorderHotkeyEvent
    rw [htok]
    dsimp only
    rw [List.all_eq_true]
    intro t ht
    exact hself t (hsub t ht)
  constructor
  · intro hperm
    have hsub : ∀ t ∈ ts, t ∈ m.canonicalTokens := fun t ht => hperm.mem_iff.mp ht
    have hlen : ts.length = m.canonicalTokens.length := hperm.length_eq
    refine ⟨?_, hfuzzy hsub⟩
    unfold isExactRecorderHotkeyEvent
    rw [htok]
    dsimp only
    rw [if_neg (by simp [hlen])]
    rw [List.all_eq_true]
    intro t ht
    exact hself t (hsub t ht)
  · intro hsub hlt
    refine ⟨hfuzzy hsub, ?_⟩
    unfold isExactRecorderHotkeyEvent
    rw [htok]
    dsimp only
    rw [if_pos (by omega)]

/-- Witness for C5 (amended) with chord `"Ctrl+Shift+M"` and an event whose
key label permutes the modifiers: `"Shift+M+Ctrl"` is an exact match. -/
theorem classify_roundTrip_witness :
    isExactRecorderHotkeyEvent
      { id := "p", offsetMs := 0, kind := .keyDown "Shift+M+Ctrl", createdAt := 0 }
      ctrlShiftM = true :=
  ((classify_roundTrip "Ctrl+Shift+M" ctrlShiftM
      { id := "p", offsetMs := 0, kind := .keyDown "Shift+M+Ctrl", createdAt := 0 }
      ["shift", "m", "ctrl"] (by decide) (by decide) (by decide)).1 (by decide)).1

end MacroArc
